import Mathlib

/-!
Verification of the master-cpa-data ingestion and reconciliation service.

Shallow embedding of the two source files:
  - src/app.py            (webhook ingestion, dedup ledger, reconciliation job)
  - src/ringba_pull_to_sheets.py (backfill poller; shares normalize_did)

Sheet cells and JSON scalars are modelled as strings / a small scalar type;
the external JSON parser and the regex repair pass are parameters of the
handler (they are third-party library calls in the source), while every
control-flow decision and state update of the handler itself is translated
from the source.
-/

namespace MasterCpa

/-! ### Identifier normalizer (src/app.py lines 61-64, src/ringba_pull_to_sheets.py lines 45-50)

`re.sub(r'\D', '', did)` removes every non-digit character;
`digits_only[-10:] if len(digits_only) >= 10 else digits_only` keeps the
last ten digits when at least ten remain. -/

def normalize_did (did : String) : String :=
  let digits_only := did.data.filter Char.isDigit
  if 10 ≤ digits_only.length then
    String.mk (digits_only.drop (digits_only.length - 10))
  else
    String.mk digits_only

/-! ### Dedup ledger (src/app.py lines 87-102)

The SQLite table `processed_calls` has `call_id` as its primary key; its
contents are modelled as the list of inserted keys.  `INSERT OR IGNORE`
inserts a new key and leaves the table unchanged when the key is present. -/

def is_duplicate {α : Type} [DecidableEq α] (ledger : List α) (call_id : α) : Bool :=
  decide (call_id ∈ ledger)

def mark_processed {α : Type} [DecidableEq α] (ledger : List α) (call_id : α) : List α :=
  if call_id ∈ ledger then ledger else ledger ++ [call_id]

/-! ### Theorems about the normalizer -/

/-- C5: for every input string the normalizer strips all non-digit
characters; when at least 10 digits remain it returns exactly the last 10
of them (a length-10 suffix of the digit string), and otherwise it returns
the full (shorter) digit string.  The function is total on `String`, so
there is no error path. -/
theorem C5_normalize_did_last_ten (s : String) :
    (10 ≤ (s.data.filter Char.isDigit).length →
      (normalize_did s).data.length = 10 ∧
      ∃ pre, s.data.filter Char.isDigit = pre ++ (normalize_did s).data) ∧
    ((s.data.filter Char.isDigit).length < 10 →
      (normalize_did s).data = s.data.filter Char.isDigit) := by
  constructor
  · intro h
    unfold normalize_did
    simp only [if_pos h]
    constructor
    · simpa using Nat.sub_sub_self h
    · exact ⟨(s.data.filter Char.isDigit).take ((s.data.filter Char.isDigit).length - 10),
        (List.take_append_drop _ _).symm⟩
  · intro h
    unfold normalize_did
    simp only [if_neg (Nat.not_le.mpr h)]

/-- C5 witness: the spec's own example identifier. -/
theorem C5_normalize_did_last_ten_witness :
    (normalize_did "(555) 123-4567").data.length = 10 ∧
    ∃ pre, "(555) 123-4567".data.filter Char.isDigit =
      pre ++ (normalize_did "(555) 123-4567").data :=
  (C5_normalize_did_last_ten "(555) 123-4567").1 (by decide)

theorem normalize_did_all_digits (s : String) :
    (normalize_did s).data.all Char.isDigit = true := by
  unfold normalize_did
  by_cases h : 10 ≤ (s.data.filter Char.isDigit).length
  · simp only [if_pos h]
    rw [List.all_eq_true]
    intro c hc
    exact List.of_mem_filter (List.mem_of_mem_drop hc)
  · simp only [if_neg h]
    rw [List.all_eq_true]
    intro c hc
    exact List.of_mem_filter hc

theorem normalize_did_len_le (s : String) :
    (normalize_did s).data.length ≤ 10 := by
  unfold normalize_did
  by_cases h : 10 ≤ (s.data.filter Char.isDigit).length
  · simp only [if_pos h, List.length_drop]
    omega
  · simp only [if_neg h]
    omega

theorem normalize_did_fixed (t : String)
    (hd : List.filter Char.isDigit t.data = t.data)
    (hl : t.data.length ≤ 10) : normalize_did t = t := by
  unfold normalize_did
  simp only [hd]
  by_cases h : 10 ≤ t.data.length
  · have h10 : t.data.length = 10 := le_antisymm hl h
    rw [if_pos h, h10]
    show String.mk (t.data.drop 0) = t
    rw [List.drop_zero]
  · rw [if_neg h]

/-- C10: the normalizer's output consists only of digit characters and has
length at most 10, and the normalizer is idempotent. -/
theorem C10_normalize_did_idempotent (s : String) :
    ((normalize_did s).data.all Char.isDigit = true) ∧
    (normalize_did s).data.length ≤ 10 ∧
    normalize_did (normalize_did s) = normalize_did s := by
  refine ⟨normalize_did_all_digits s, normalize_did_len_le s, ?_⟩
  refine normalize_did_fixed (normalize_did s) ?_ (normalize_did_len_le s)
  refine List.filter_eq_self.mpr ?_
  intro c hc
  exact (List.all_eq_true.mp (normalize_did_all_digits s)) c hc

/-! ### Theorems about the dedup ledger -/

theorem is_duplicate_mark_self {α : Type} [DecidableEq α] (ledger : List α) (x : α) :
    is_duplicate (mark_processed ledger x) x = true := by
  unfold is_duplicate mark_processed
  by_cases h : x ∈ ledger
  · simp [h]
  · simp [h]

theorem is_duplicate_mark_other {α : Type} [DecidableEq α] (ledger : List α) (x y : α)
    (hxy : y ≠ x) : is_duplicate (mark_processed ledger x) y = is_duplicate ledger y := by
  unfold is_duplicate mark_processed
  by_cases h : x ∈ ledger
  · simp [h]
  · simp [h, List.mem_append, hxy]

theorem mark_processed_idem {α : Type} [DecidableEq α] (ledger : List α) (x : α) :
    mark_processed (mark_processed ledger x) x = mark_processed ledger x := by
  unfold mark_processed
  by_cases h : x ∈ ledger
  · simp [h]
  · simp [h]

theorem sublist_mark_processed {α : Type} [DecidableEq α] (ledger : List α) (x : α) :
    List.Sublist ledger (mark_processed ledger x) := by
  unfold mark_processed
  by_cases h : x ∈ ledger
  · simp [h]
  · rw [if_neg h]
    exact List.sublist_append_left ledger [x]

/-- C3: after `mark_processed x` the identifier `x` is reported as a
duplicate, any other identifier's duplicate status is unchanged, and
`mark_processed` is idempotent (re-inserting a present identifier leaves
the ledger unchanged). -/
theorem C3_ledger_mark_processed (ledger : List String) (x y : String) :
    is_duplicate (mark_processed ledger x) x = true ∧
    (y ≠ x → is_duplicate (mark_processed ledger x) y = is_duplicate ledger y) ∧
    mark_processed (mark_processed ledger x) x = mark_processed ledger x :=
  ⟨is_duplicate_mark_self ledger x,
   fun hxy => is_duplicate_mark_other ledger x y hxy,
   mark_processed_idem ledger x⟩

/-! ### Association lists

Python dictionaries preserve insertion order; assignment to a present key
replaces the value in place, assignment to an absent key appends.  The
dictionaries of `refresh_map` and the parsed JSON objects of the webhook
handler are modelled as association lists with exactly that update rule. -/

def alistGet {β : Type} : List (String × β) → String → Option β
  | [], _ => none
  | p :: rest, k => if p.1 = k then some p.2 else alistGet rest k

def alistSet {β : Type} : List (String × β) → String → β → List (String × β)
  | [], k, v => [(k, v)]
  | p :: rest, k, v => if p.1 = k then (k, v) :: rest else p :: alistSet rest k v

theorem alistGet_set_self {β : Type} (m : List (String × β)) (k : String) (v : β) :
    alistGet (alistSet m k v) k = some v := by
  induction m with
  | nil => simp [alistGet, alistSet]
  | cons p rest ih =>
    by_cases h : p.1 = k
    · simp [alistGet, alistSet, h]
    · simp [alistGet, alistSet, h, ih]

theorem alistGet_set_other {β : Type} (m : List (String × β)) (k k' : String) (v : β)
    (h : k' ≠ k) : alistGet (alistSet m k v) k' = alistGet m k' := by
  induction m with
  | nil => simp [alistGet, alistSet, h.symm]
  | cons p rest ih =>
    by_cases hp : p.1 = k
    · simp only [alistSet, if_pos hp, alistGet]
      rw [if_neg (fun hh => h hh.symm), if_neg (by rw [hp]; exact fun hh => h hh.symm)]
    · simp only [alistSet, if_neg hp, alistGet, ih]

theorem mem_alistSet {β : Type} (m : List (String × β)) (k : String) (v : β)
    (p : String × β) (hp : p ∈ alistSet m k v) : p = (k, v) ∨ p ∈ m := by
  induction m with
  | nil => simpa [alistSet] using hp
  | cons q rest ih =>
    by_cases hq : q.1 = k
    · rw [alistSet, if_pos hq] at hp
      rcases List.mem_cons.mp hp with h | h
      · exact Or.inl h
      · exact Or.inr (List.mem_cons_of_mem _ h)
    · rw [alistSet, if_neg hq] at hp
      rcases List.mem_cons.mp hp with h | h
      · exact Or.inr (h ▸ List.mem_cons_self _ _)
      · rcases ih h with h1 | h1
        · exact Or.inl h1
        · exact Or.inr (List.mem_cons_of_mem _ h1)

theorem mem_keys_alistSet {β : Type} (m : List (String × β)) (k a : String) (v : β)
    (ha : a ∈ (alistSet m k v).map Prod.fst) : a ∈ m.map Prod.fst ∨ a = k := by
  rcases List.mem_map.mp ha with ⟨p, hp, hpa⟩
  rcases mem_alistSet m k v p hp with h | h
  · right; rw [← hpa, h]
  · left; exact List.mem_map.mpr ⟨p, h, hpa⟩

theorem nodup_keys_alistSet {β : Type} (m : List (String × β)) (k : String) (v : β)
    (hm : (m.map Prod.fst).Nodup) : ((alistSet m k v).map Prod.fst).Nodup := by
  induction m with
  | nil => simp [alistSet]
  | cons q rest ih =>
    rw [List.map_cons, List.nodup_cons] at hm
    by_cases hq : q.1 = k
    · rw [alistSet, if_pos hq]
      rw [List.map_cons, List.nodup_cons]
      exact ⟨by rw [← hq]; exact hm.1, hm.2⟩
    · rw [alistSet, if_neg hq]
      rw [List.map_cons, List.nodup_cons]
      refine ⟨?_, ih hm.2⟩
      intro hmem
      rcases mem_keys_alistSet rest k q.1 v hmem with h | h
      · exact hm.1 h
      · exact hq h

/-- C3 witness: a concrete ledger and a pair of distinct identifiers. -/
theorem C3_ledger_mark_processed_witness :
    is_duplicate (mark_processed ([] : List String) "a") "a" = true ∧
    is_duplicate (mark_processed ([] : List String) "a") "b" =
      is_duplicate ([] : List String) "b" ∧
    mark_processed (mark_processed ([] : List String) "a") "a" =
      mark_processed ([] : List String) "a" :=
  ⟨(C3_ledger_mark_processed [] "a" "b").1,
   (C3_ledger_mark_processed [] "a" "b").2.1 (by decide),
   (C3_ledger_mark_processed [] "a" "b").2.2⟩

/-! ### Reconciliation job (src/app.py lines 440-526, `refresh_map`)

Sheet rows are lists of string cells.  The job reads the full `Ringba Raw`
sheet, resolves the column indices from the header row (falling back to
fixed positions), skips rows too short to contain every needed column,
admits a row only when its canonical identifier is in the realtime cache
and the campaign whitelist is empty or matched, keeps the latest call per
identifier by string comparison of `call_start_utc`, and finally counts
identifiers per publisher. -/

/-- Python `str.strip()`: remove leading and trailing whitespace. -/
def pyStrip (s : String) : String :=
  String.mk (((s.data.dropWhile Char.isWhitespace).reverse.dropWhile
    Char.isWhitespace).reverse)

/-- Python `<` on strings: lexicographic comparison by code point. -/
def charListLt : List Char → List Char → Bool
  | [], [] => false
  | [], _ :: _ => true
  | _ :: _, [] => false
  | a :: as, b :: bs =>
    if a < b then true else if b < a then false else charListLt as bs

def strLt (a b : String) : Bool := charListLt a.data b.data

structure MapEntry where
  publisher_name : String
  publisher_id : String
  last_seen_call_start : String
deriving DecidableEq

structure ColIdx where
  call_id_idx : Nat
  call_start_idx : Nat
  did_canon_idx : Nat
  publisher_name_idx : Nat
  publisher_id_idx : Nat
  campaign_idx : Nat
deriving DecidableEq

/-- `headers.index(name) if name in headers else dflt` (first occurrence). -/
def colIndex (headers : List String) (name : String) (dflt : Nat) : Nat :=
  if name ∈ headers then headers.indexOf name else dflt

def resolveIdx (headers : List String) : ColIdx :=
  { call_id_idx := colIndex headers "call_id" 0
    call_start_idx := colIndex headers "call_start_utc" 1
    did_canon_idx := colIndex headers "did_canon" 3
    publisher_name_idx := colIndex headers "publisher_name" 10
    publisher_id_idx := colIndex headers "publisher_id" 9
    campaign_idx := colIndex headers "campaign" 7 }

/-- `max(call_id_idx, call_start_idx, did_canon_idx, publisher_name_idx,
publisher_id_idx, campaign_idx)`. -/
def ColIdx.maxIdx (ix : ColIdx) : Nat :=
  max ix.call_id_idx (max ix.call_start_idx (max ix.did_canon_idx
    (max ix.publisher_name_idx (max ix.publisher_id_idx ix.campaign_idx))))

def cell (row : List String) (i : Nat) : String := row.getD i ""

/-- `str(row[did_canon_idx]).strip()`. -/
def rowKey (ix : ColIdx) (row : List String) : String :=
  pyStrip (cell row ix.did_canon_idx)

/-- The attributes retained for a row:
`publisher_name`, `publisher_id` (both stripped) and the raw `call_start`. -/
def rowEntry (ix : ColIdx) (row : List String) : MapEntry :=
  { publisher_name := pyStrip (cell row ix.publisher_name_idx)
    publisher_id := pyStrip (cell row ix.publisher_id_idx)
    last_seen_call_start := cell row ix.call_start_idx }

/-- A row is admitted when it is long enough (`len(row) <= max(...)` is the
skip condition), its canonical identifier is in the realtime cache, and the
campaign whitelist is empty or contains its campaign. -/
def admitted (realtime campaigns : List String) (ix : ColIdx) (row : List String) : Bool :=
  decide (ix.maxIdx < row.length) &&
  (decide (rowKey ix row ∈ realtime) &&
   (campaigns.isEmpty || decide (pyStrip (cell row ix.campaign_idx) ∈ campaigns)))

/-- `did_canon not in did_publisher_map or call_start > did_publisher_map[did_canon]["last_seen_call_start"]`. -/
def shouldReplace (m : List (String × MapEntry)) (d : String) (start : String) : Bool :=
  match alistGet m d with
  | none => true
  | some old => strLt old.last_seen_call_start start

theorem shouldReplace_none (m : List (String × MapEntry)) (d s : String)
    (hg : alistGet m d = none) : shouldReplace m d s = true := by
  rw [shouldReplace, hg]

theorem shouldReplace_some (m : List (String × MapEntry)) (d s : String) (old : MapEntry)
    (hg : alistGet m d = some old) :
    shouldReplace m d s = strLt old.last_seen_call_start s := by
  rw [shouldReplace, hg]

/-- One row of the scan: `did_publisher_map[did_canon] = {...}` when the
identifier is new or the row's `call_start` is strictly greater than the
held entry's. -/
def processRow (realtime campaigns : List String) (ix : ColIdx)
    (m : List (String × MapEntry)) (row : List String) : List (String × MapEntry) :=
  if admitted realtime campaigns ix row then
    if shouldReplace m (rowKey ix row) (rowEntry ix row).last_seen_call_start then
      alistSet m (rowKey ix row) (rowEntry ix row)
    else m
  else m

def buildDidMap (realtime campaigns : List String) (ix : ColIdx)
    (rows : List (List String)) : List (String × MapEntry) :=
  rows.foldl (processRow realtime campaigns ix) []

/-- `publisher_did_counts[publisher] = publisher_did_counts.get(publisher, 0) + 1`
accumulated over the finished map's entries. -/
def buildCounts (m : List (String × MapEntry)) : List (String × Nat) :=
  m.foldl (fun c p => alistSet c p.2.publisher_name
    ((alistGet c p.2.publisher_name).getD 0 + 1)) []

/-- The reconciliation job: `none` models the HTTP 400 raised when the raw
sheet is empty or has only a header row; otherwise the derived map and the
publisher counts (the two full-table replacements it writes). -/
def refresh_map (realtime campaigns : List String) (raw_data : List (List String)) :
    Option (List (String × MapEntry) × List (String × Nat)) :=
  match raw_data with
  | [] => none
  | headers :: rows =>
    if rows.isEmpty then none
    else
      some (buildDidMap realtime campaigns (resolveIdx headers) rows,
            buildCounts (buildDidMap realtime campaigns (resolveIdx headers) rows))

/-- The admitted rows carrying canonical identifier `d`, in scan order. -/
def admittedFor (realtime campaigns : List String) (ix : ColIdx) (d : String)
    (rows : List (List String)) : List (List String) :=
  rows.filter (fun row => admitted realtime campaigns ix row && decide (rowKey ix row = d))

/-- The latest-call-wins scan over a single identifier's admitted rows:
first occurrence initializes, later rows replace only on strict
string-greater `call_start`. -/
def stepEntry (ix : ColIdx) (acc : Option MapEntry) (row : List String) : Option MapEntry :=
  match acc with
  | none => some (rowEntry ix row)
  | some old =>
    if strLt old.last_seen_call_start (rowEntry ix row).last_seen_call_start then
      some (rowEntry ix row)
    else some old

def bestOf (ix : ColIdx) (rows : List (List String)) : Option MapEntry :=
  rows.foldl (stepEntry ix) none

/-! ### Order facts about the lexicographic string comparison -/

theorem charListLt_irrefl : ∀ a : List Char, charListLt a a = false := by
  intro a
  induction a with
  | nil => rfl
  | cons x as ih => simp [charListLt, lt_irrefl, ih]

theorem charListLt_trans : ∀ a b c : List Char,
    charListLt a b = true → charListLt b c = true → charListLt a c = true := by
  intro a
  induction a with
  | nil =>
    intro b c hab hbc
    cases b with
    | nil => simp [charListLt] at hab
    | cons y bs =>
      cases c with
      | nil => simp [charListLt] at hbc
      | cons z cs => simp [charListLt]
  | cons x as ih =>
    intro b c hab hbc
    cases b with
    | nil => simp [charListLt] at hab
    | cons y bs =>
      cases c with
      | nil => simp [charListLt] at hbc
      | cons z cs =>
        simp only [charListLt] at hab hbc ⊢
        by_cases hxy : x < y
        · by_cases hyz : y < z
          · simp [lt_trans hxy hyz]
          · by_cases hzy : z < y
            · simp [hyz, hzy] at hbc
            · have hyeq : y = z := le_antisymm (not_lt.mp hzy) (not_lt.mp hyz)
              rw [← hyeq]
              simp [hxy]
        · by_cases hyx : y < x
          · simp [hxy, hyx] at hab
          · have hxeq : x = y := le_antisymm (not_lt.mp hyx) (not_lt.mp hxy)
            subst hxeq
            simp only [lt_irrefl, if_neg (lt_irrefl x), if_false] at hab
            by_cases hyz : x < z
            · simp [hyz]
            · by_cases hzy : z < x
              · simp [hyz, hzy] at hbc
              · have hzeq : x = z := le_antisymm (not_lt.mp hzy) (not_lt.mp hyz)
                subst hzeq
                simp only [lt_irrefl, if_neg (lt_irrefl x), if_false] at hbc ⊢
                exact ih bs cs hab hbc

theorem charListLt_total : ∀ a b : List Char,
    charListLt a b = true ∨ charListLt b a = true ∨ a = b := by
  intro a
  induction a with
  | nil =>
    intro b
    cases b with
    | nil => exact Or.inr (Or.inr rfl)
    | cons y bs => exact Or.inl (by simp [charListLt])
  | cons x as ih =>
    intro b
    cases b with
    | nil => exact Or.inr (Or.inl (by simp [charListLt]))
    | cons y bs =>
      rcases lt_trichotomy x y with h | h | h
      · exact Or.inl (by simp [charListLt, h])
      · subst h
        rcases ih bs with h1 | h1 | h1
        · exact Or.inl (by simp [charListLt, lt_irrefl, h1])
        · exact Or.inr (Or.inl (by simp [charListLt, lt_irrefl, h1]))
        · exact Or.inr (Or.inr (by rw [h1]))
      · exact Or.inr (Or.inl (by simp [charListLt, h]))

theorem strLt_trans (a b c : String) (h1 : strLt a b = true) (h2 : strLt b c = true) :
    strLt a c = true :=
  charListLt_trans a.data b.data c.data h1 h2

/-- From `a < b` and `¬ (c < b)` conclude `a < c` (strict-below a lower bound). -/
theorem strLt_of_lt_of_not_lt (a b c : String)
    (h1 : strLt a b = true) (h2 : strLt c b = false) : strLt a c = true := by
  rcases charListLt_total b.data c.data with h | h | h
  · exact charListLt_trans a.data b.data c.data h1 h
  · rw [strLt, h] at h2; cases h2
  · rw [strLt, ← h]; exact h1

theorem strLt_irrefl (a : String) : strLt a a = false :=
  charListLt_irrefl a.data

/-! ### The latest-wins scan, per identifier -/

theorem stepOption_spec (ix : ColIdx) :
    ∀ (rows : List (List String)) (acc : Option MapEntry) (e : MapEntry),
      rows.foldl (stepEntry ix) acc = some e →
      ((acc = some e ∨ ∃ r ∈ rows, rowEntry ix r = e) ∧
       (∀ a, acc = some a →
          strLt e.last_seen_call_start a.last_seen_call_start = false) ∧
       (∀ r ∈ rows,
          strLt e.last_seen_call_start (rowEntry ix r).last_seen_call_start = false)) := by
  intro rows
  induction rows with
  | nil =>
    intro acc e hfold
    refine ⟨Or.inl hfold, ?_, by simp⟩
    intro a ha
    rw [List.foldl_nil] at hfold
    rw [hfold] at ha
    cases Option.some.inj ha
    exact strLt_irrefl _
  | cons row rows ih =>
    intro acc e hfold
    rw [List.foldl_cons] at hfold
    obtain ⟨ih1, ih2, ih3⟩ := ih (stepEntry ix acc row) e hfold
    have hstep : ∀ a', stepEntry ix acc row = some a' →
        a' = rowEntry ix row ∨ acc = some a' := by
      intro a' ha'
      cases acc with
      | none =>
        rw [stepEntry] at ha'
        exact Or.inl (Option.some.inj ha').symm
      | some old =>
        rw [stepEntry] at ha'
        by_cases hlt : strLt old.last_seen_call_start
            (rowEntry ix row).last_seen_call_start = true
        · rw [if_pos hlt] at ha'
          exact Or.inl (Option.some.inj ha').symm
        · rw [if_neg hlt] at ha'
          exact Or.inr ha'
    have hrowle : strLt e.last_seen_call_start
        (rowEntry ix row).last_seen_call_start = false := by
      cases acc with
      | none => exact ih2 (rowEntry ix row) (by rw [stepEntry])
      | some old =>
        by_cases hlt : strLt old.last_seen_call_start
            (rowEntry ix row).last_seen_call_start = true
        · exact ih2 (rowEntry ix row) (by rw [stepEntry, if_pos hlt])
        · have hold : strLt e.last_seen_call_start old.last_seen_call_start = false :=
            ih2 old (by rw [stepEntry, if_neg hlt])
          by_contra hcon
          rw [Bool.not_eq_false] at hcon
          have := strLt_of_lt_of_not_lt _ _ _ hcon (Bool.not_eq_true _ ▸ hlt)
          rw [this] at hold
          cases hold
    refine ⟨?_, ?_, ?_⟩
    · rcases ih1 with h | ⟨r, hr, hre⟩
      · rcases hstep e h with h1 | h1
        · exact Or.inr ⟨row, List.mem_cons_self _ _, h1.symm⟩
        · exact Or.inl h1
      · exact Or.inr ⟨r, List.mem_cons_of_mem _ hr, hre⟩
    · intro a ha
      cases acc with
      | none => cases ha
      | some old =>
        cases ha
        by_cases hlt : strLt a.last_seen_call_start
            (rowEntry ix row).last_seen_call_start = true
        · have hnew : strLt e.last_seen_call_start
              (rowEntry ix row).last_seen_call_start = false :=
            ih2 (rowEntry ix row) (by rw [stepEntry, if_pos hlt])
          by_contra hcon
          rw [Bool.not_eq_false] at hcon
          have := strLt_trans _ _ _ hcon hlt
          rw [this] at hnew
          cases hnew
        · exact ih2 a (by rw [stepEntry, if_neg hlt])
    · intro r hr
      rcases List.mem_cons.mp hr with h | h
      · rw [h]; exact hrowle
      · exact ih3 r h

theorem alistGet_processRow (rt cs : List String) (ix : ColIdx)
    (m : List (String × MapEntry)) (row : List String) (d : String) :
    alistGet (processRow rt cs ix m row) d =
      (if admitted rt cs ix row && decide (rowKey ix row = d)
       then stepEntry ix (alistGet m d) row
       else alistGet m d) := by
  by_cases ha : admitted rt cs ix row = true
  · by_cases hk : rowKey ix row = d
    · subst hk
      rw [if_pos (by rw [ha]; simp)]
      rw [processRow, if_pos ha]
      cases hg : alistGet m (rowKey ix row) with
      | none =>
        rw [if_pos (shouldReplace_none m _ _ hg), stepEntry, alistGet_set_self]
      | some old =>
        rw [shouldReplace_some m _ _ old hg, stepEntry]
        by_cases hlt : strLt old.last_seen_call_start
            (rowEntry ix row).last_seen_call_start = true
        · rw [if_pos hlt, if_pos hlt, alistGet_set_self]
        · rw [if_neg hlt, if_neg hlt, hg]
    · rw [if_neg (by simp [hk])]
      rw [processRow, if_pos ha]
      have hne : d ≠ rowKey ix row := fun hh => hk hh.symm
      by_cases hrep : shouldReplace m (rowKey ix row)
          (rowEntry ix row).last_seen_call_start = true
      · rw [if_pos hrep, alistGet_set_other _ _ _ _ hne]
      · rw [if_neg hrep]
  · rw [if_neg (by simp [ha]), processRow, if_neg ha]

theorem alistGet_foldl_processRow (rt cs : List String) (ix : ColIdx) (d : String) :
    ∀ (rows : List (List String)) (m : List (String × MapEntry)),
      alistGet (rows.foldl (processRow rt cs ix) m) d =
      (rows.filter (fun row =>
        admitted rt cs ix row && decide (rowKey ix row = d))).foldl
        (stepEntry ix) (alistGet m d) := by
  intro rows
  induction rows with
  | nil => intro m; rfl
  | cons row rows ih =>
    intro m
    rw [List.foldl_cons, ih, alistGet_processRow, List.filter_cons]
    cases h : (admitted rt cs ix row && decide (rowKey ix row = d)) with
    | true => simp [h, List.foldl_cons]
    | false => simp [h]

/-- Lookup in the finished map is exactly the latest-wins scan over the
admitted rows of that identifier. -/
theorem alistGet_buildDidMap (rt cs : List String) (ix : ColIdx) (d : String)
    (rows : List (List String)) :
    alistGet (buildDidMap rt cs ix rows) d = bestOf ix (admittedFor rt cs ix d rows) := by
  rw [buildDidMap, bestOf, admittedFor, alistGet_foldl_processRow]
  rfl

theorem nodup_keys_foldl_processRow (rt cs : List String) (ix : ColIdx) :
    ∀ (rows : List (List String)) (m : List (String × MapEntry)),
      (m.map Prod.fst).Nodup →
      ((rows.foldl (processRow rt cs ix) m).map Prod.fst).Nodup := by
  intro rows
  induction rows with
  | nil => intro m hm; exact hm
  | cons row rows ih =>
    intro m hm
    rw [List.foldl_cons]
    refine ih _ ?_
    rw [processRow]
    by_cases ha : admitted rt cs ix row = true
    · rw [if_pos ha]
      by_cases hrep : shouldReplace m (rowKey ix row)
          (rowEntry ix row).last_seen_call_start = true
      · rw [if_pos hrep]; exact nodup_keys_alistSet _ _ _ hm
      · rw [if_neg hrep]; exact hm
    · rw [if_neg ha]; exact hm

theorem admitted_mem_realtime (rt cs : List String) (ix : ColIdx) (row : List String)
    (h : admitted rt cs ix row = true) : rowKey ix row ∈ rt := by
  rw [admitted] at h
  simp only [Bool.and_eq_true, decide_eq_true_eq] at h
  exact h.2.1

theorem keys_foldl_processRow_realtime (rt cs : List String) (ix : ColIdx) :
    ∀ (rows : List (List String)) (m : List (String × MapEntry)),
      (∀ p ∈ m, p.1 ∈ rt) →
      ∀ p ∈ rows.foldl (processRow rt cs ix) m, p.1 ∈ rt := by
  intro rows
  induction rows with
  | nil => intro m hm; exact hm
  | cons row rows ih =>
    intro m hm
    rw [List.foldl_cons]
    refine ih _ ?_
    intro p hp
    rw [processRow] at hp
    by_cases ha : admitted rt cs ix row = true
    · rw [if_pos ha] at hp
      by_cases hrep : shouldReplace m (rowKey ix row)
          (rowEntry ix row).last_seen_call_start = true
      · rw [if_pos hrep] at hp
        rcases mem_alistSet _ _ _ _ hp with h | h
        · rw [h]; exact admitted_mem_realtime rt cs ix row ha
        · exact hm p h
      · rw [if_neg hrep] at hp; exact hm p hp
    · rw [if_neg ha] at hp; exact hm p hp

theorem alistGet_buildCounts_aux :
    ∀ (entries : List (String × MapEntry)) (c : List (String × Nat)) (pub : String),
      (alistGet (entries.foldl (fun c p => alistSet c p.2.publisher_name
        ((alistGet c p.2.publisher_name).getD 0 + 1)) c) pub).getD 0 =
      (alistGet c pub).getD 0 +
        entries.countP (fun q => decide (q.2.publisher_name = pub)) := by
  intro entries
  induction entries with
  | nil => intro c pub; simp [List.countP, List.countP.go]
  | cons q rest ih =>
    intro c pub
    rw [List.foldl_cons, ih, List.countP_cons]
    by_cases hq : q.2.publisher_name = pub
    · rw [hq, alistGet_set_self]
      simp [hq]
      omega
    · rw [alistGet_set_other _ _ _ _ (fun hh => hq hh.symm)]
      simp [hq]

/-- Per-publisher count in the derived counts table equals the number of
retained map entries naming that publisher. -/
theorem alistGet_buildCounts (m : List (String × MapEntry)) (pub : String) :
    (alistGet (buildCounts m) pub).getD 0 =
      m.countP (fun q => decide (q.2.publisher_name = pub)) := by
  rw [buildCounts, alistGet_buildCounts_aux]
  simp [alistGet]

/-! ### The spec's reconciliation example -/

def exampleHeaders : List String :=
  ["call_id", "call_start_utc", "did_raw", "did_canon", "caller_id",
   "duration_sec", "disposition", "campaign", "target",
   "publisher_id", "publisher_name", "payout", "revenue", "_ingested_at"]

def exampleRow1 : List String :=
  ["c1", "2025-01-01T10:00:00Z", "A", "A", "", "", "", "", "", "p1id", "P1"]

def exampleRow2 : List String :=
  ["c2", "2025-01-01T12:00:00Z", "A", "A", "", "", "", "", "", "p2id", "P2"]

def exampleEntry : MapEntry :=
  { publisher_name := "P2", publisher_id := "p2id",
    last_seen_call_start := "2025-01-01T12:00:00Z" }

/-- C1: for every event log, the reconciliation scan keeps exactly one
entry per canonical identifier (the map's keys are duplicate-free); the
lookup for an identifier is exactly the latest-wins scan over that
identifier's admitted rows (first occurrence initializes, later rows
replace only on strictly greater start-timestamp string); the retained
entry is the attributes of an admitted row whose start timestamp no other
admitted row strictly exceeds; the publisher-count table counts one
identifier per retained entry; and on the spec's two-event example the
result is one entry for `A` with publisher `P2` and counts `{P2: 1}`. -/
theorem C1_reconciliation_latest_wins (rt cs : List String) (ix : ColIdx)
    (rows : List (List String)) (d pub : String) :
    ((buildDidMap rt cs ix rows).map Prod.fst).Nodup ∧
    alistGet (buildDidMap rt cs ix rows) d = bestOf ix (admittedFor rt cs ix d rows) ∧
    (∀ e, alistGet (buildDidMap rt cs ix rows) d = some e →
      (∃ r ∈ admittedFor rt cs ix d rows, rowEntry ix r = e) ∧
      ∀ r ∈ admittedFor rt cs ix d rows,
        strLt e.last_seen_call_start (rowEntry ix r).last_seen_call_start = false) ∧
    (alistGet (buildCounts (buildDidMap rt cs ix rows)) pub).getD 0 =
      (buildDidMap rt cs ix rows).countP (fun q => decide (q.2.publisher_name = pub)) ∧
    refresh_map ["A"] [] [exampleHeaders, exampleRow1, exampleRow2] =
      some ([("A", exampleEntry)], [("P2", 1)]) := by
  refine ⟨nodup_keys_foldl_processRow rt cs ix rows [] (by simp),
          alistGet_buildDidMap rt cs ix d rows, ?_,
          alistGet_buildCounts _ pub, by decide⟩
  intro e he
  rw [alistGet_buildDidMap] at he
  rw [bestOf] at he
  obtain ⟨h1, _, h3⟩ := stepOption_spec ix (admittedFor rt cs ix d rows) none e he
  rcases h1 with h | h
  · exact Option.noConfusion h
  · exact ⟨h, h3⟩

/-- C1 witness: on the spec's example the retained entry for `A` is
attained by an admitted row and no admitted row strictly exceeds it. -/
theorem C1_reconciliation_latest_wins_witness :
    (∃ r ∈ admittedFor ["A"] [] (resolveIdx exampleHeaders) "A" [exampleRow1, exampleRow2],
        rowEntry (resolveIdx exampleHeaders) r = exampleEntry) ∧
    ∀ r ∈ admittedFor ["A"] [] (resolveIdx exampleHeaders) "A" [exampleRow1, exampleRow2],
      strLt exampleEntry.last_seen_call_start
        (rowEntry (resolveIdx exampleHeaders) r).last_seen_call_start = false :=
  (C1_reconciliation_latest_wins ["A"] [] (resolveIdx exampleHeaders)
    [exampleRow1, exampleRow2] "A" "P2").2.2.1 exampleEntry (by decide)

/-- C2: an identifier absent from the realtime cache never appears among
the mapping entries produced by the reconciliation job, for every event
log and every cache contents. -/
theorem C2_map_only_realtime (rt cs : List String) (raw : List (List String))
    (m : List (String × MapEntry)) (counts : List (String × Nat))
    (hm : refresh_map rt cs raw = some (m, counts)) :
    ∀ p ∈ m, p.1 ∈ rt := by
  cases raw with
  | nil => exact Option.noConfusion hm
  | cons headers rows =>
    rw [refresh_map] at hm
    by_cases hrows : rows.isEmpty = true
    · rw [if_pos hrows] at hm
      exact Option.noConfusion hm
    · rw [if_neg hrows] at hm
      have hpair := Option.some.inj hm
      have hm2 : buildDidMap rt cs (resolveIdx headers) rows = m :=
        congrArg Prod.fst hpair
      intro p hp
      rw [← hm2] at hp
      exact keys_foldl_processRow_realtime rt cs (resolveIdx headers) rows []
        (by simp) p hp

/-- C2 witness: on the spec's example the single produced entry's
identifier is in the realtime cache. -/
theorem C2_map_only_realtime_witness : ("A", exampleEntry).1 ∈ ["A"] :=
  C2_map_only_realtime ["A"] [] [exampleHeaders, exampleRow1, exampleRow2]
    [("A", exampleEntry)] [("P2", 1)] (by decide) ("A", exampleEntry) (by decide)

/-! ### Webhook ingestion endpoint (src/app.py lines 308-438, `ringba_webhook`)

JSON scalars are modelled by `JVal` (null, string, or numeric literal kept
as source text); a parsed body is an association list of fields.  The
external pieces — `json.loads` and the ordered regex repair pass — are
parameters (`parse`, `fixJson`): the handler first tries `parse raw`, on
failure tries `parse (fixJson raw)`, and rejects with the structured error
body when that also fails.  `appendOk` records whether the remote append
(`append_to_sheet`) succeeds; the `try/except` around the direct write
swallows its failure.  The handler's observable outcome is its response,
the updated dedup ledger, and the ordered trace of external effects. -/

inductive JVal where
  | null : JVal
  | str : String → JVal
  | num : String → JVal
deriving DecidableEq

abbrev Body := List (String × JVal)

/-- Python truthiness of a scalar: `None`, the empty string and numeric
zero are falsy. -/
def JVal.truthy : JVal → Bool
  | .null => false
  | .str s => !(s == "")
  | .num v => !(v == "0")

/-- The string content of a scalar, for `normalize_did(did_raw)`. -/
def JVal.asStr : JVal → String
  | .null => ""
  | .str s => s
  | .num v => v

/-- `body.get(key, default)`. -/
def bget (body : Body) (key : String) (dflt : JVal) : JVal :=
  (alistGet body key).getD dflt

/-- `safe_get` (src/app.py lines 385-390): every call site passes the
default `""`; `None` and the empty string are replaced by the default. -/
def safe_get (body : Body) (key : String) : JVal :=
  if bget body key (.str "") = JVal.null ∨ bget body key (.str "") = JVal.str "" then
    JVal.str ""
  else bget body key (.str "")

/-- Python `a or b`. -/
def pyOr (a b : JVal) : JVal := if a.truthy then a else b

inductive Resp where
  | success : Resp
  | duplicate : Resp
  | jsonError : String → Resp
  | httpError : Nat → String → Resp
deriving DecidableEq

inductive Effect where
  | ensureHeaders : Effect
  | appendRow : List JVal → Bool → Effect
  | markProcessed : JVal → Effect
deriving DecidableEq

structure HandlerResult where
  response : Resp
  ledger : List JVal
  effects : List Effect
deriving DecidableEq

/-- The persisted row (src/app.py lines 392-407), columns
`call_id, call_start_utc, did_raw, did_canon, caller_id, duration_sec,
disposition, campaign, target, publisher_id, publisher_name, payout,
revenue, _ingested_at`. -/
def buildRow (now : String) (body : Body) (call_id : JVal) : List JVal :=
  [ call_id,
    safe_get body "callStartUtc",
    bget body "did" (.str ""),
    .str (normalize_did (bget body "did" (.str "")).asStr),
    bget body "callerId" (.str ""),
    safe_get body "durationSec",
    safe_get body "disposition",
    pyOr (bget body "campaignName" (.str "")) (bget body "campaignId" (.str "")),
    safe_get body "target",
    safe_get body "publisherId",
    safe_get body "publisherName",
    safe_get body "payout",
    safe_get body "revenue",
    .str now ]

/-- Processing of a successfully parsed body: missing/falsy `call_id`
raises HTTP 400; a known identifier returns the duplicate status without
effects; otherwise headers are ensured, the row append is attempted (its
failure is caught and logged, never surfaced), the identifier is marked
processed, and success is returned. -/
def handleBody (appendOk : Bool) (now : String) (ledger : List JVal)
    (body : Body) : HandlerResult :=
  if (bget body "call_id" JVal.null).truthy = false then
    { response := .httpError 400 "Missing call_id", ledger := ledger, effects := [] }
  else if is_duplicate ledger (bget body "call_id" JVal.null) then
    { response := .duplicate, ledger := ledger, effects := [] }
  else
    { response := .success,
      ledger := mark_processed ledger (bget body "call_id" JVal.null),
      effects := [.ensureHeaders,
                  .appendRow (buildRow now body (bget body "call_id" JVal.null)) appendOk,
                  .markProcessed (bget body "call_id" JVal.null)] }

/-- The full endpoint: strict parse, repair-and-reparse, then body
processing; a second parse failure yields the structured error body
`{"status": "error", "message": "Invalid JSON format - could not fix"}`. -/
def ringba_webhook (parse : String → Option Body) (fixJson : String → String)
    (appendOk : Bool) (now : String) (ledger : List JVal) (raw : String) :
    HandlerResult :=
  match parse raw with
  | some body => handleBody appendOk now ledger body
  | none =>
    match parse (fixJson raw) with
    | some body => handleBody appendOk now ledger body
    | none =>
      { response := .jsonError "Invalid JSON format - could not fix",
        ledger := ledger, effects := [] }

def Effect.isMark : Effect → Bool
  | .markProcessed _ => true
  | _ => false

/-- On every path of the endpoint, the prior ledger is a sublist of the
resulting ledger: dedup records are never updated or deleted. -/
theorem ringba_webhook_parsed (parse : String → Option Body)
    (fixJson : String → String) (appendOk : Bool) (now : String)
    (ledger : List JVal) (raw : String) (body : Body)
    (hp : parse raw = some body) :
    ringba_webhook parse fixJson appendOk now ledger raw =
      handleBody appendOk now ledger body := by
  rw [ringba_webhook, hp]

theorem ledger_sublist_webhook (parse : String → Option Body)
    (fixJson : String → String) (appendOk : Bool) (now : String)
    (ledger : List JVal) (raw : String) :
    List.Sublist ledger (ringba_webhook parse fixJson appendOk now ledger raw).ledger := by
  have hbody : ∀ body : Body,
      List.Sublist ledger (handleBody appendOk now ledger body).ledger := by
    intro body
    rw [handleBody]
    by_cases ht : (bget body "call_id" JVal.null).truthy = false
    · rw [if_pos ht]
    · rw [if_neg ht]
      by_cases hd : is_duplicate ledger (bget body "call_id" JVal.null) = true
      · rw [if_pos hd]
      · rw [if_neg hd]
        exact sublist_mark_processed ledger _
  rw [ringba_webhook]
  cases parse raw with
  | some body => exact hbody body
  | none =>
    cases parse (fixJson raw) with
    | some body => exact hbody body
    | none => exact List.Sublist.refl _

/-- The accepted path of the endpoint, fully unfolded: parse succeeds, the
body carries a truthy `call_id` not yet in the ledger. -/
theorem webhook_accepted (parse : String → Option Body) (fixJson : String → String)
    (appendOk : Bool) (now : String) (ledger : List JVal) (raw : String)
    (body : Body) (call_id : JVal)
    (hp : parse raw = some body)
    (hc : bget body "call_id" JVal.null = call_id)
    (ht : call_id.truthy = true)
    (hd : is_duplicate ledger call_id = false) :
    ringba_webhook parse fixJson appendOk now ledger raw =
      { response := .success,
        ledger := mark_processed ledger call_id,
        effects := [.ensureHeaders, .appendRow (buildRow now body call_id) appendOk,
                    .markProcessed call_id] } := by
  rw [ringba_webhook_parsed parse fixJson appendOk now ledger raw body hp]
  rw [handleBody, hc]
  rw [if_neg (by simp [ht])]
  rw [if_neg (by simp [hd])]

/-- C4: a payload that fails the strict parse and still fails after the
repair pass is answered with the structured error-status body (never a
framework-level 4xx/5xx response and no escaping exception), and neither
the dedup ledger nor the event log is touched (no effects at all). -/
theorem C4_unparseable_rejected (parse : String → Option Body)
    (fixJson : String → String) (appendOk : Bool) (now : String)
    (ledger : List JVal) (raw : String)
    (h1 : parse raw = none) (h2 : parse (fixJson raw) = none) :
    (ringba_webhook parse fixJson appendOk now ledger raw).response =
      .jsonError "Invalid JSON format - could not fix" ∧
    (ringba_webhook parse fixJson appendOk now ledger raw).ledger = ledger ∧
    (ringba_webhook parse fixJson appendOk now ledger raw).effects = [] := by
  rw [ringba_webhook, h1, h2]
  exact ⟨rfl, rfl, rfl⟩

/-- C4 witness: a parser that rejects everything. -/
theorem C4_unparseable_rejected_witness :
    (ringba_webhook (fun _ => none) id true "t0" [] "x").response =
      Resp.jsonError "Invalid JSON format - could not fix" ∧
    (ringba_webhook (fun _ => none) id true "t0" [] "x").ledger = [] ∧
    (ringba_webhook (fun _ => none) id true "t0" [] "x").effects = [] :=
  C4_unparseable_rejected (fun _ => none) id true "t0" [] "x" rfl rfl

/-- C8: on the synchronous direct-write path, a failing remote append
(`appendOk = false`) never fails the accepting request: the handler still
marks the identifier processed and still returns the success status. -/
theorem C8_append_failure_still_success (parse : String → Option Body)
    (fixJson : String → String) (appendOk : Bool) (now : String)
    (ledger : List JVal) (raw : String) (body : Body) (call_id : JVal)
    (hp : parse raw = some body)
    (hc : bget body "call_id" JVal.null = call_id)
    (ht : call_id.truthy = true)
    (hd : is_duplicate ledger call_id = false) :
    (ringba_webhook parse fixJson appendOk now ledger raw).response = .success ∧
    is_duplicate (ringba_webhook parse fixJson appendOk now ledger raw).ledger
      call_id = true := by
  rw [webhook_accepted parse fixJson appendOk now ledger raw body call_id hp hc ht hd]
  exact ⟨rfl, is_duplicate_mark_self ledger call_id⟩

/-- C8 witness: a concrete accepted event with a failing append. -/
theorem C8_append_failure_still_success_witness :
    (ringba_webhook (fun _ => some [("call_id", JVal.str "w8")]) id false "t0" []
      "x").response = Resp.success ∧
    is_duplicate (ringba_webhook (fun _ => some [("call_id", JVal.str "w8")]) id false
      "t0" [] "x").ledger (JVal.str "w8") = true :=
  C8_append_failure_still_success (fun _ => some [("call_id", JVal.str "w8")]) id
    false "t0" [] "x" [("call_id", JVal.str "w8")] (JVal.str "w8")
    rfl (by decide) (by decide) (by decide)

theorem safe_get_empty (body : Body) (key : String)
    (h : alistGet body key = none ∨ alistGet body key = some JVal.null ∨
         alistGet body key = some (JVal.str "")) :
    safe_get body key = JVal.str "" := by
  rcases h with h | h | h <;> simp [safe_get, bget, h]

/-- The row the handler persists for a body containing only
`{"call_id": "c6"}`: every optional column gets the `safe_get` default,
the empty string. -/
def c6row : List JVal :=
  [JVal.str "c6", JVal.str "", JVal.str "", JVal.str "", JVal.str "", JVal.str "",
   JVal.str "", JVal.str "", JVal.str "", JVal.str "", JVal.str "", JVal.str "",
   JVal.str "", JVal.str "t0"]

/-- C6 counterexample: for the accepted event `{"call_id": "c6"}` (payout
and revenue absent) the persisted row's payout and revenue cells (columns
11 and 12) hold the empty string, which is neither the number 0 nor the
string "0" — the claim that the row carries the value 0 fails. -/
theorem C6_counterexample :
    (ringba_webhook (fun _ => some [("call_id", JVal.str "c6")]) id true "t0" []
      "x").effects =
      [Effect.ensureHeaders, Effect.appendRow c6row true,
       Effect.markProcessed (JVal.str "c6")] ∧
    c6row.getD 11 JVal.null = JVal.str "" ∧
    c6row.getD 12 JVal.null = JVal.str "" ∧
    JVal.str "" ≠ JVal.num "0" ∧ JVal.str "" ≠ JVal.str "0" :=
  ⟨by decide, by decide, by decide, by decide, by decide⟩

/-- C6 (amended): for every accepted event whose payout or revenue field
is absent, null, or the empty string, the persisted row carries the empty
string (the `safe_get` call-site default) in those columns — not 0. -/
theorem C6_amended_empty_string_default (parse : String → Option Body)
    (fixJson : String → String) (appendOk : Bool) (now : String)
    (ledger : List JVal) (raw : String) (body : Body) (call_id : JVal)
    (hp : parse raw = some body)
    (hc : bget body "call_id" JVal.null = call_id)
    (ht : call_id.truthy = true)
    (hd : is_duplicate ledger call_id = false)
    (hpay : alistGet body "payout" = none ∨ alistGet body "payout" = some JVal.null ∨
            alistGet body "payout" = some (JVal.str ""))
    (hrev : alistGet body "revenue" = none ∨ alistGet body "revenue" = some JVal.null ∨
            alistGet body "revenue" = some (JVal.str "")) :
    (ringba_webhook parse fixJson appendOk now ledger raw).effects =
      [Effect.ensureHeaders, Effect.appendRow (buildRow now body call_id) appendOk,
       Effect.markProcessed call_id] ∧
    (buildRow now body call_id).getD 11 JVal.null = JVal.str "" ∧
    (buildRow now body call_id).getD 12 JVal.null = JVal.str "" := by
  refine ⟨?_, ?_, ?_⟩
  · rw [webhook_accepted parse fixJson appendOk now ledger raw body call_id hp hc ht hd]
  · show safe_get body "payout" = JVal.str ""
    exact safe_get_empty body "payout" hpay
  · show safe_get body "revenue" = JVal.str ""
    exact safe_get_empty body "revenue" hrev

/-- C6 amended-claim witness: the `{"call_id": "c6"}` event. -/
theorem C6_amended_empty_string_default_witness :
    (ringba_webhook (fun _ => some [("call_id", JVal.str "c6")]) id true "t0" []
      "x").effects =
      [Effect.ensureHeaders,
       Effect.appendRow (buildRow "t0" [("call_id", JVal.str "c6")] (JVal.str "c6")) true,
       Effect.markProcessed (JVal.str "c6")] ∧
    (buildRow "t0" [("call_id", JVal.str "c6")] (JVal.str "c6")).getD 11 JVal.null =
      JVal.str "" ∧
    (buildRow "t0" [("call_id", JVal.str "c6")] (JVal.str "c6")).getD 12 JVal.null =
      JVal.str "" :=
  C6_amended_empty_string_default (fun _ => some [("call_id", JVal.str "c6")]) id true
    "t0" [] "x" [("call_id", JVal.str "c6")] (JVal.str "c6")
    rfl (by decide) (by decide) (by decide) (Or.inl (by decide)) (Or.inl (by decide))

/-- C7 counterexample: for the accepted event `{"call_id": "c7"}` with a
succeeding remote append, there is no position of a `markProcessed` effect
at or before a position of the (successful) append effect — the dedup
record is created strictly after the event is durably written, so the
claimed ordering fails. -/
theorem C7_counterexample :
    ¬ ∃ i j : Nat, i ≤ j ∧
      (ringba_webhook (fun _ => some [("call_id", JVal.str "c7")]) id true "t0" []
        "x").effects.get? i = some (Effect.markProcessed (JVal.str "c7")) ∧
      (∃ row, (ringba_webhook (fun _ => some [("call_id", JVal.str "c7")]) id true "t0"
        [] "x").effects.get? j = some (Effect.appendRow row true)) := by
  rintro ⟨i, j, hij, hmark, row, happ⟩
  have he : (ringba_webhook (fun _ => some [("call_id", JVal.str "c7")]) id true "t0" []
      "x").effects =
      [Effect.ensureHeaders,
       Effect.appendRow (buildRow "t0" [("call_id", JVal.str "c7")] (JVal.str "c7")) true,
       Effect.markProcessed (JVal.str "c7")] := by decide
  rw [he] at hmark happ
  have hi : i = 2 := by
    rcases i with _ | _ | _ | i
    · simp [List.get?] at hmark
    · simp [List.get?] at hmark
    · rfl
    · simp [List.get?] at hmark
  have hj : j = 1 := by
    rcases j with _ | _ | _ | j
    · simp [List.get?] at happ
    · rfl
    · simp [List.get?] at happ
    · simp [List.get?] at happ
  omega

/-- C7 (amended): for every accepted inbound event the handler's effect
trace is exactly header-check, append attempt, mark-processed: the dedup
record is created strictly after the remote append (hence after the
durable write when it succeeds), exactly once within the accepting
request; and the ledger only ever grows — records are never updated or
deleted on any path. -/
theorem C7_amended_mark_after_write (parse : String → Option Body)
    (fixJson : String → String) (appendOk : Bool) (now : String)
    (ledger : List JVal) (raw : String) (body : Body) (call_id : JVal)
    (hp : parse raw = some body)
    (hc : bget body "call_id" JVal.null = call_id)
    (ht : call_id.truthy = true)
    (hd : is_duplicate ledger call_id = false) :
    (ringba_webhook parse fixJson appendOk now ledger raw).effects =
      [Effect.ensureHeaders, Effect.appendRow (buildRow now body call_id) appendOk,
       Effect.markProcessed call_id] ∧
    (ringba_webhook parse fixJson appendOk now ledger raw).effects.get? 2 =
      some (Effect.markProcessed call_id) ∧
    (ringba_webhook parse fixJson appendOk now ledger raw).effects.get? 1 =
      some (Effect.appendRow (buildRow now body call_id) appendOk) ∧
    (ringba_webhook parse fixJson appendOk now ledger raw).effects.countP
      Effect.isMark = 1 ∧
    (ringba_webhook parse fixJson appendOk now ledger raw).ledger =
      mark_processed ledger call_id ∧
    List.Sublist ledger (ringba_webhook parse fixJson appendOk now ledger raw).ledger := by
  rw [webhook_accepted parse fixJson appendOk now ledger raw body call_id hp hc ht hd]
  exact ⟨rfl, rfl, rfl, rfl, rfl, sublist_mark_processed ledger call_id⟩

/-- C7 amended-claim witness: the `{"call_id": "c7"}` event with a
succeeding append. -/
theorem C7_amended_mark_after_write_witness :
    (ringba_webhook (fun _ => some [("call_id", JVal.str "c7")]) id true "t0" []
      "x").effects =
      [Effect.ensureHeaders,
       Effect.appendRow (buildRow "t0" [("call_id", JVal.str "c7")] (JVal.str "c7")) true,
       Effect.markProcessed (JVal.str "c7")] ∧
    (ringba_webhook (fun _ => some [("call_id", JVal.str "c7")]) id true "t0" []
      "x").effects.get? 2 = some (Effect.markProcessed (JVal.str "c7")) ∧
    (ringba_webhook (fun _ => some [("call_id", JVal.str "c7")]) id true "t0" []
      "x").effects.get? 1 = some (Effect.appendRow
        (buildRow "t0" [("call_id", JVal.str "c7")] (JVal.str "c7")) true) ∧
    (ringba_webhook (fun _ => some [("call_id", JVal.str "c7")]) id true "t0" []
      "x").effects.countP Effect.isMark = 1 ∧
    (ringba_webhook (fun _ => some [("call_id", JVal.str "c7")]) id true "t0" []
      "x").ledger = mark_processed [] (JVal.str "c7") ∧
    List.Sublist [] (ringba_webhook (fun _ => some [("call_id", JVal.str "c7")]) id true
      "t0" [] "x").ledger :=
  C7_amended_mark_after_write (fun _ => some [("call_id", JVal.str "c7")]) id true "t0"
    [] "x" [("call_id", JVal.str "c7")] (JVal.str "c7")
    rfl (by decide) (by decide) (by decide)

/-! ### Bounded ingestion queue and batched writer (src/app.py lines 33-34, 246-280) -/

def MAX_QUEUE_SIZE : Nat := 100

/-- One drain cycle of the background writer (src/app.py lines 265-266):
`rows_to_flush = background_writer_queue[:25]`,
`background_writer_queue[:] = background_writer_queue[25:]`. -/
def writer_drain {α : Type} (queue : List α) : List α × List α :=
  (queue.take 25, queue.drop 25)

/-- Modelled from the spec: src/app.py declares `MAX_QUEUE_SIZE = 100`
("Memory optimization: Limit queue size to prevent memory issues") and the
drain side of the queue, but contains no producer — in the deployed
configuration the webhook writes directly and nothing enqueues.  The
admission policy is modelled from spec section 4.4: an enqueue attempt when
the queue already holds its capacity is dropped (the function is total, so
it never blocks); otherwise the row is appended at the tail. -/
def enqueue {α : Type} (queue : List α) (row : α) : List α :=
  if MAX_QUEUE_SIZE ≤ queue.length then queue else queue ++ [row]

/-- C9: each drain cycle removes and writes at most 25 rows; the batch is
exactly the oldest-enqueued prefix, in order (batch ++ remainder is the
original queue); and an enqueue attempt at capacity leaves the queue
unchanged (dropped, not blocking), while below capacity it appends. -/
theorem C9_bounded_batch_and_queue {α : Type} (queue : List α) (row : α) :
    (writer_drain queue).1.length ≤ 25 ∧
    (writer_drain queue).1 ++ (writer_drain queue).2 = queue ∧
    (writer_drain queue).2 = queue.drop 25 ∧
    (MAX_QUEUE_SIZE ≤ queue.length → enqueue queue row = queue) ∧
    (queue.length < MAX_QUEUE_SIZE → enqueue queue row = queue ++ [row]) := by
  refine ⟨?_, ?_, rfl, ?_, ?_⟩
  · exact List.length_take_le 25 queue
  · exact List.take_append_drop 25 queue
  · intro h; rw [enqueue, if_pos h]
  · intro h; rw [enqueue, if_neg (Nat.not_le.mpr h)]

/-- C9 witness: a full queue drops the enqueued row; a short queue
appends it. -/
theorem C9_bounded_batch_and_queue_witness :
    enqueue (List.replicate 100 (0 : Nat)) 7 = List.replicate 100 (0 : Nat) ∧
    enqueue ([1] : List Nat) 7 = [1] ++ [7] := by
  constructor
  · exact (C9_bounded_batch_and_queue (List.replicate 100 (0 : Nat)) 7).2.2.2.1
      (by simp [MAX_QUEUE_SIZE])
  · exact (C9_bounded_batch_and_queue ([1] : List Nat) 7).2.2.2.2
      (by simp [MAX_QUEUE_SIZE])

end MasterCpa
